import Mathlib

/-!
Verification development for the Platmy repository (src/platmy/utils.py).

The file shallowly embeds the parsing and orchestration core of the
repository: the fixed-width abundances parser `read_abunds`, the
columnar-to-row transform `dict_to_list`, the temperature-profile selector
`temperature_model`, the abundance-template selector `set_abundance_file`,
and the chemistry process bridge `get_PT_abundances_MMW`.

Modelling conventions:
  - Numeric cells are modelled as rationals (`Rat`); the claims under
    study concern record structure, lengths and key sets, not floating
    point arithmetic.
  - A Python dict is modelled as an insertion-ordered association list
    with unique keys; `dictSet` is dict assignment, `dictGet` is lookup.
  - A raised Python exception is modelled as `none` / `Except.error`.
  - `np.genfromtxt` is modelled on the numeric rows that remain after its
    default comment handling skips the header line.  Crucially, genfromtxt
    squeezes its result: with zero or one data rows it returns a 1-D
    array, on which a 2-D index expression `dat[:, j]` raises IndexError.
-/

namespace Platmy

/-- Numeric cell values of the parsed tables (stand-in for numpy floats). -/
abbrev Val := Rat

/-! ## Python dict primitives -/

/-- Python dict assignment `r[k] = v` on an insertion-ordered association
list: overwrite in place when the key is present, append otherwise. -/
def dictSet {α : Type} (r : List (String × α)) (k : String) (v : α) :
    List (String × α) :=
  match r with
  | [] => [(k, v)]
  | (k', v') :: rest => if k' = k then (k, v) :: rest else (k', v') :: dictSet rest k v

/-- Python dict lookup `r[k]`, as an option. -/
def dictGet {α : Type} (r : List (String × α)) (k : String) : Option α :=
  match r with
  | [] => none
  | (k', v) :: rest => if k' = k then some v else dictGet rest k

/-- The key list of a dict after an assignment: unchanged when the key is
already present, the key appended otherwise. -/
def insertKey (ks : List String) (k : String) : List String :=
  if k ∈ ks then ks else ks ++ [k]

/-! ## dict_to_list (utils.py lines 137-149) -/

/-- One column pass of the `dict_to_list` loop:
`for i, el in enumerate(v): list_of_dictionaries[i][k] = el`.
Indexed assignment at the successive indices 0, 1, ... updates the
records in order and raises IndexError (modelled as `none`) exactly when
the column is longer than the record list. -/
def setColumn {α : Type} (k : String) :
    List (List (String × α)) → List α → Option (List (List (String × α)))
  | l, [] => some l
  | [], _ :: _ => none
  | r :: rs, x :: xs => (setColumn k rs xs).map (fun l' => dictSet r k x :: l')

/-- Shallow embedding of `dict_to_list`.  The record list is seeded from
the first value in iteration order (`next(iter(input_dict.values()))`,
which raises StopIteration on an empty dict), then every column is
written into the records by index. -/
def dict_to_list {α : Type} (input_dict : List (String × List α)) :
    Option (List (List (String × α))) :=
  match input_dict with
  | [] => none
  | (k0, v0) :: rest =>
    ((k0, v0) :: rest).foldlM (fun acc p => setColumn p.1 acc p.2)
      (v0.map fun _ => ([] : List (String × α)))

/-- The effect of one column on the record at index `i`: assign when the
column reaches index `i`, leave the record alone otherwise. -/
def rowStep {α : Type} (i : Nat) (r : List (String × α)) (p : String × List α) :
    List (String × α) :=
  match p.2[i]? with
  | some x => dictSet r p.1 x
  | none => r

/-- The record at row index `i` that `dict_to_list` builds: all columns
folded over the empty dict. -/
def recordAt {α : Type} (d : List (String × List α)) (i : Nat) : List (String × α) :=
  d.foldl (rowStep i) []

/-! ## numpy fragment -/

/-- A numpy array as returned by `np.genfromtxt`: 1-D when fewer than two
rows were read (numpy squeezes the result), 2-D otherwise. -/
inductive NpArr : Type where
  | oneD (row : List Val)
  | twoD (rows : List (List Val))

/-- Model of `np.genfromtxt` on the numeric rows of a file (the header
line is skipped by the default comment handling).  Ragged rows raise
(`none`); zero or one rows give a squeezed 1-D array. -/
def genfromtxt (rows : List (List Val)) : Option NpArr :=
  match rows with
  | [] => some (NpArr.oneD [])
  | [r] => some (NpArr.oneD r)
  | r :: rs =>
    if rs.all (fun row => row.length == r.length) then some (NpArr.twoD (r :: rs))
    else none

/-- Extract column `j` of a row list, failing when a row is too short. -/
def colOf : List (List Val) → Nat → Option (List Val)
  | [], _ => some []
  | row :: rs, j =>
    match row[j]?, colOf rs j with
    | some x, some xs => some (x :: xs)
    | _, _ => none

/-- The numpy expression `dat[:, j]` with Python index semantics: on a
1-D array it raises IndexError (too many indices); on a 2-D array a
negative `j` counts from the end, and an out-of-range `j` raises. -/
def npCol (a : NpArr) (j : Int) : Option (List Val) :=
  match a with
  | NpArr.oneD _ => none
  | NpArr.twoD rows =>
    let w : Nat := (rows.head?.map List.length).getD 0
    let j2 : Int := if j < 0 then j + (w : Int) else j
    if 0 ≤ j2 ∧ j2 < (w : Int) then colOf rows j2.toNat else none

/-! ## Fixed-width header decoding (read_abunds, utils.py lines 152-182) -/

/-- Python string slice `s[a:b]` on a character list (both bounds clamp). -/
def pySlice (cs : List Char) (a b : Nat) : List Char := (cs.take b).drop a

/-- Python `s.replace(' ', '')`: remove every space character. -/
def removeSpaces (cs : List Char) : List Char := cs.filter (fun c => c != ' ')

/-- Digits of a decimal numeral to a natural number. -/
def digitsToNat (ds : List Char) : Nat :=
  ds.foldl (fun n c => n * 10 + (c.toNat - '0'.toNat)) 0

/-- Python `int(s)`: strip surrounding whitespace, optional sign, then a
nonempty digit string; anything else raises ValueError (`none`). -/
def parsePyInt (s : String) : Option Int :=
  match ((s.toList.dropWhile Char.isWhitespace).reverse.dropWhile
      Char.isWhitespace).reverse with
  | [] => none
  | '+' :: ds =>
    if !ds.isEmpty && ds.all Char.isDigit then some ((digitsToNat ds : Nat) : Int)
    else none
  | '-' :: ds =>
    if !ds.isEmpty && ds.all Char.isDigit then some (-((digitsToNat ds : Nat) : Int))
    else none
  | ds =>
    if ds.all Char.isDigit then some ((digitsToNat ds : Nat) : Int) else none

/-- The number of 22-character header slots:
`int((len(header) - 21) / 22)` (truncation matches Nat subtraction and
division for every header length). -/
def numSlots (header : String) : Nat := (header.length - 21) / 22

/-- Header slot `i`: `header[21 + i*22 : 21 + (i+1)*22]`. -/
def speciesSlot (header : String) (i : Nat) : List Char :=
  pySlice header.toList (21 + i * 22) (21 + (i + 1) * 22)

/-- The raw species name of slot `i`: the slot from character 3 on, with
every space removed (`[3:].replace(' ', '')`). -/
def rawName (header : String) (i : Nat) : String :=
  ⟨removeSpaces ((speciesSlot header i).drop 3)⟩

/-- The species name used as a key: the raw name, with the special-case
rename of the literal label to plain C2H2. -/
def speciesName (header : String) (i : Nat) : String :=
  if rawName header i = "C2H2,acetylene" then "C2H2" else rawName header i

/-- The first three characters of slot `i`, fed to `int(...)`. -/
def slotIndexStr (header : String) (i : Nat) : String :=
  ⟨(speciesSlot header i).take 3⟩

/-- The data column an even slot binds: parse the index field, then take
that column of the array. -/
def slotColumn (dat : NpArr) (header : String) (i : Nat) : Option (List Val) :=
  (parsePyInt (slotIndexStr header i)).bind fun n => npCol dat n

/-- One iteration of the header loop of `read_abunds`: an even slot
parses its index field and binds its column to the species name; an odd
slot is skipped. -/
def slotStep (header : String) (dat : NpArr)
    (ret : List (String × List Val)) (i : Nat) : Option (List (String × List Val)) :=
  if i % 2 = 0 then
    (parsePyInt (slotIndexStr header i)).bind fun number =>
      (npCol dat number).map fun c => dictSet ret (speciesName header i) c
  else some ret

/-- The key list of the column table `read_abunds` builds, computed
directly from the header. -/
def headerKeys (header : String) : List String :=
  (List.range (numSlots header)).foldl
    (fun ks i => if i % 2 = 0 then insertKey ks (speciesName header i) else ks)
    ["P", "T", "rho"]

/-- The species names decoded from the even-indexed header slots. -/
def speciesNamesEven (header : String) : List String :=
  ((List.range (numSlots header)).filter (fun i => i % 2 = 0)).map (speciesName header)

/-- An abundances file as `read_abunds` sees it: the first line as
`readlines()[0]` returns it, and the numeric rows `np.genfromtxt` reads
from the body (the header line begins with a comment mark and is skipped
by genfromtxt). -/
structure AbundFile : Type where
  line0 : String
  body : List (List Val)

/-- The header string: `f.readlines()[0][:-1]` drops the final character
of the first line. -/
def headerOf (f : AbundFile) : String := ⟨f.line0.toList.dropLast⟩

/-- Shallow embedding of `read_abunds`: read the header, parse the
numeric matrix, bind P, T, rho to columns 0, 1, 2, decode the header
slots, and hand the column table to `dict_to_list`. -/
def read_abunds (f : AbundFile) : Option (List (List (String × Val))) :=
  (genfromtxt f.body).bind fun dat =>
  (npCol dat 0).bind fun p =>
  (npCol dat 1).bind fun t =>
  (npCol dat 2).bind fun rho =>
  ((List.range (numSlots (headerOf f))).foldlM (slotStep (headerOf f) dat)
      [("P", p), ("T", t), ("rho", rho)]).bind
    dict_to_list

/-! ## temperature_model (utils.py lines 115-134) -/

/-- A value stored in the params dict: the model name or a number. -/
inductive PVal : Type where
  | s (v : String)
  | r (v : Rat)
deriving DecidableEq

/-- Shallow embedding of `temperature_model`.  The external collaborator
`nc.guillot_global` is passed in as a function argument.  For an
unrecognized model string neither branch runs: the profile stays `none`
and the params dict holds only the model name. -/
def temperature_model (temp : Rat) (pressures : List Rat) (gravity : Rat)
    (guillot_global : List Rat → Rat → Rat → Rat → Rat → Rat → List Rat)
    (model : String) : Option (List Rat) × List (String × PVal) :=
  let params : List (String × PVal) := [("model", PVal.s model)]
  if model = "constant" then
    (some (pressures.map fun _ => temp), dictSet params "temp" (PVal.r temp))
  else if model = "guillot" then
    let kappa_IR : Rat := 1 / 100
    let gamma : Rat := 2 / 5
    let T_int : Rat := 200
    let T_equ : Rat := temp
    let params2 :=
      dictSet (dictSet (dictSet (dictSet params "t_int" (PVal.r T_int))
        "t_equ" (PVal.r T_equ)) "kappa_ir" (PVal.r kappa_IR)) "gamma" (PVal.r gamma)
    (some (guillot_global pressures kappa_IR gamma gravity T_int T_equ), params2)
  else
    (none, params)

/-! ## set_abundance_file (utils.py lines 231-249) -/

/-- A raised Python exception, by type and message. -/
inductive PyError : Type where
  | typeError (msg : String)
  | keyError (msg : String)
deriving DecidableEq

/-- Shallow embedding of `set_abundance_file`.  A recognized selector
copies the named template onto the active input file inside the solver
directory; the result is the (source, destination) pair of that copy.
For any other selector the code executes `raise(KeyError, "...")`: in
Python 3 the parenthesized form raises the tuple itself, which is not an
exception, so the interpreter raises
TypeError: exceptions must derive from BaseException, and the intended
KeyError and its message are lost. -/
def set_abundance_file (atype : String) : Except PyError (String × String) :=
  if atype = "std" then Except.ok ("Standard_abundances.inp", "abundances.inp")
  else if atype = "subsolar" then Except.ok ("Subsolar_abundances.inp", "abundances.inp")
  else Except.error (PyError.typeError "exceptions must derive from BaseException")

/-! ## get_PT_abundances_MMW (utils.py lines 185-204) -/

/-- An observable side effect of the chemistry bridge. -/
inductive Op : Type where
  | chdir (path : String)
  | savetxt (file : String)
  | system (cmd : String)
deriving DecidableEq

/-- `os.path.join` for the paths used here. -/
def joinPath (a b : String) : String := a ++ "/" ++ b

/-- The environment a run of the bridge finds: the working directory at
entry and the outcome of each fallible external step.  `none` for the
abundances file or the MMW rows means the corresponding read raises
(for instance because the unchecked solver invocation produced no
output files). -/
structure ChemWorld : Type where
  cwd : String
  savetxtOk : Bool
  abundFile : Option AbundFile
  mmwRows : Option (List (List Val))

/-- The outcome of a run of the bridge: the side-effect trace, the
working directory the process is left in, and the returned value
(`none` when an exception propagated out). -/
structure ChemRun : Type where
  trace : List Op
  finalCwd : String
  result : Option (List (List (String × Val)) × List Val)

/-- Shallow embedding of `get_PT_abundances_MMW`.  The function changes
into the solver directory, writes the PT input file, invokes the solver
(exit status unchecked), reads both output files, deletes the three
working files, and only then restores the working directory.  An
exception in any step after the change propagates immediately: no
handler or cleanup runs, so the process stays in the solver directory. -/
def get_PT_abundances_MMW (w : ChemWorld) : ChemRun :=
  let current_dir := w.cwd
  let solverDir := joinPath current_dir "easy_chem"
  if !w.savetxtOk then ⟨[Op.chdir solverDir], solverDir, none⟩
  else
    let tr1 := [Op.chdir solverDir, Op.savetxt "PT_struct.dat",
      Op.system "./call_easy_chem"]
    match w.abundFile.bind read_abunds with
    | none => ⟨tr1, solverDir, none⟩
    | some abunds =>
      match (w.mmwRows.bind genfromtxt).bind fun dat => npCol dat 1 with
      | none => ⟨tr1, solverDir, none⟩
      | some mmw =>
        ⟨tr1 ++ [Op.system "rm MMWs.dat", Op.system "rm final_abund_all.dat",
          Op.system "rm PT_struct.dat", Op.chdir current_dir],
         current_dir, some (abunds, mmw)⟩

/-! ## Basic lemmas about the dict primitives -/

theorem getElem?_isSome_iff {α : Type} (l : List α) (i : Nat) :
    l[i]?.isSome = true ↔ i < l.length := by
  constructor
  · intro h
    obtain ⟨a, ha⟩ := Option.isSome_iff_exists.mp h
    obtain ⟨hlt, -⟩ := List.getElem?_eq_some.mp ha
    exact hlt
  · intro h
    rw [List.getElem?_eq_getElem h]
    rfl

theorem dictSet_map_fst {α : Type} (r : List (String × α)) (k : String) (x : α) :
    (dictSet r k x).map Prod.fst = insertKey (r.map Prod.fst) k := by
  induction r with
  | nil => simp [dictSet, insertKey]
  | cons q rest ih =>
    obtain ⟨k', v'⟩ := q
    by_cases hk : k' = k
    · subst hk
      simp [dictSet, insertKey]
    · simp only [dictSet, if_neg hk, List.map_cons, ih]
      by_cases hm : k ∈ rest.map Prod.fst
      · simp [insertKey, hm, Ne.symm hk]
      · simp [insertKey, hm, Ne.symm hk]

theorem dictGet_dictSet_self {α : Type} (r : List (String × α)) (k : String) (x : α) :
    dictGet (dictSet r k x) k = some x := by
  induction r with
  | nil => simp [dictSet, dictGet]
  | cons q rest ih =>
    obtain ⟨k', v'⟩ := q
    by_cases hk : k' = k
    · subst hk
      simp [dictSet, dictGet]
    · simp [dictSet, dictGet, hk, ih]

theorem dictGet_dictSet_ne {α : Type} (r : List (String × α)) {k k' : String} (x : α)
    (h : k ≠ k') : dictGet (dictSet r k x) k' = dictGet r k' := by
  induction r with
  | nil => simp [dictSet, dictGet, h]
  | cons q rest ih =>
    obtain ⟨k'', v''⟩ := q
    by_cases hk : k'' = k
    · subst hk
      simp [dictSet, dictGet, h]
    · simp [dictSet, dictGet, hk, ih]

theorem mem_dictSet {α : Type} {p : String × α} {r : List (String × α)} {k : String}
    {x : α} (h : p ∈ dictSet r k x) : p = (k, x) ∨ p ∈ r := by
  induction r with
  | nil => simpa [dictSet] using h
  | cons q rest ih =>
    obtain ⟨k', v'⟩ := q
    by_cases hk : k' = k
    · subst hk
      rcases (by simpa [dictSet] using h : p = (k', x) ∨ p ∈ rest) with h1 | h1
      · exact Or.inl h1
      · exact Or.inr (List.mem_cons_of_mem _ h1)
    · rcases (by simpa [dictSet, hk] using h : p = (k', v') ∨ p ∈ dictSet rest k x)
        with h1 | h1
      · exact Or.inr (by simp [h1])
      · rcases ih h1 with h2 | h2
        · exact Or.inl h2
        · exact Or.inr (List.mem_cons_of_mem _ h2)

theorem insertKey_toFinset (ks : List String) (k : String) :
    (insertKey ks k).toFinset = insert k ks.toFinset := by
  by_cases h : k ∈ ks
  · simp [insertKey, h, Finset.insert_eq_self.mpr (List.mem_toFinset.mpr h)]
  · simp [insertKey, h, List.toFinset_append, Finset.union_comm, Finset.insert_eq]

theorem insertKey_nodup {ks : List String} (k : String) (h : ks.Nodup) :
    (insertKey ks k).Nodup := by
  by_cases hm : k ∈ ks
  · simpa [insertKey, hm] using h
  · simp [insertKey, hm, List.nodup_append, h]

/-! ## Lemmas about setColumn and dict_to_list -/

theorem setColumn_eq_some {α : Type} {k : String} :
    ∀ {l : List (List (String × α))} {v : List α} {l'},
      setColumn k l v = some l' →
      l'.length = l.length ∧ ∀ i, l'[i]? = (l[i]?).map (fun r => rowStep i r (k, v))
  | l, [], l' => by
    intro h
    simp only [setColumn, Option.some.injEq] at h
    subst h
    refine ⟨rfl, fun i => ?_⟩
    cases hl : l[i]? <;> simp [rowStep]
  | [], _ :: _, l' => by
    intro h
    simp [setColumn] at h
  | r :: rs, x :: xs, l' => by
    intro h
    simp only [setColumn, Option.map_eq_some'] at h
    obtain ⟨l'', h1, h2⟩ := h
    subst h2
    obtain ⟨hlen, hpt⟩ := setColumn_eq_some h1
    refine ⟨by simp [hlen], fun i => ?_⟩
    cases i with
    | zero => simp [rowStep]
    | succ j => simp [List.getElem?_cons_succ, hpt j, rowStep]

theorem setColumn_isSome {α : Type} {k : String} :
    ∀ {l : List (List (String × α))} {v : List α},
      v.length ≤ l.length → (setColumn k l v).isSome
  | l, [] => by
    intro _
    simp [setColumn]
  | [], _ :: _ => by
    intro h
    simp at h
  | r :: rs, x :: xs => by
    intro h
    simp only [List.length_cons, Nat.add_le_add_iff_right] at h
    have := setColumn_isSome (k := k) (l := rs) (v := xs) h
    obtain ⟨l'', hl''⟩ := Option.isSome_iff_exists.mp this
    simp [setColumn, hl'']

theorem setColumn_none {α : Type} {k : String} :
    ∀ {l : List (List (String × α))} {v : List α},
      l.length < v.length → setColumn k l v = none
  | l, [] => by
    intro h
    simp at h
  | [], _ :: _ => by
    intro _
    simp [setColumn]
  | r :: rs, x :: xs => by
    intro h
    simp only [List.length_cons, Nat.add_lt_add_iff_right] at h
    simp [setColumn, setColumn_none (k := k) h]

theorem foldlM_setColumn_some {α : Type} :
    ∀ {C : List (String × List α)} {acc ret : List (List (String × α))},
      C.foldlM (fun a p => setColumn p.1 a p.2) acc = some ret →
      ret.length = acc.length ∧
        ∀ i, ret[i]? = (acc[i]?).map (fun r => C.foldl (rowStep i) r)
  | [], acc, ret => by
    intro h
    simp only [List.foldlM_nil, pure, Option.some.injEq] at h
    subst h
    refine ⟨rfl, fun i => ?_⟩
    cases hl : acc[i]? <;> simp
  | p :: C', acc, ret => by
    intro h
    rw [List.foldlM_cons] at h
    simp only [bind, Option.bind_eq_some] at h
    obtain ⟨acc', h1, h2⟩ := h
    obtain ⟨hlen1, hpt1⟩ := setColumn_eq_some h1
    obtain ⟨hlen2, hpt2⟩ := foldlM_setColumn_some h2
    refine ⟨by rw [hlen2, hlen1], fun i => ?_⟩
    rw [hpt2 i, hpt1 i, Option.map_map]
    cases hl : acc[i]? <;> simp [Function.comp, List.foldl_cons]

theorem foldlM_setColumn_none {α : Type} :
    ∀ {C : List (String × List α)} {acc : List (List (String × α))},
      (∃ p ∈ C, acc.length < p.2.length) →
      C.foldlM (fun a p => setColumn p.1 a p.2) acc = none
  | [], acc => by
    rintro ⟨p, hp, -⟩
    simp at hp
  | q :: C', acc => by
    rintro ⟨p, hp, hlen⟩
    rw [List.foldlM_cons]
    by_cases hq : acc.length < q.2.length
    · rw [setColumn_none hq]
      rfl
    · have hqs := setColumn_isSome (k := q.1) (l := acc) (v := q.2) (Nat.le_of_not_lt hq)
      obtain ⟨acc', hacc'⟩ := Option.isSome_iff_exists.mp hqs
      rw [hacc']
      have hlen' : acc'.length = acc.length := (setColumn_eq_some hacc').1
      have hpC' : p ∈ C' := by
        rcases List.mem_cons.mp hp with h | h
        · exact absurd (h ▸ hlen) hq
        · exact h
      have : C'.foldlM (fun a p => setColumn p.1 a p.2) acc' = none :=
        foldlM_setColumn_none ⟨p, hpC', hlen' ▸ hlen⟩
      simpa [bind] using this

theorem foldlM_setColumn_isSome {α : Type} :
    ∀ {C : List (String × List α)} {acc : List (List (String × α))},
      (∀ p ∈ C, p.2.length ≤ acc.length) →
      (C.foldlM (fun a p => setColumn p.1 a p.2) acc).isSome
  | [], acc => by
    intro _
    simp [List.foldlM_nil, pure]
  | q :: C', acc => by
    intro h
    rw [List.foldlM_cons]
    have hqs := setColumn_isSome (k := q.1) (l := acc) (v := q.2)
      (h q (List.mem_cons_self q C'))
    obtain ⟨acc', hacc'⟩ := Option.isSome_iff_exists.mp hqs
    rw [hacc']
    have hlen' : acc'.length = acc.length := (setColumn_eq_some hacc').1
    have := @foldlM_setColumn_isSome α C' acc'
      (fun p hp => hlen' ▸ h p (List.mem_cons_of_mem q hp))
    simpa [bind] using this

/-- On a nonempty column table whose columns are all at most as long as
the first one, `dict_to_list` succeeds and the record at index `i` is
exactly the fold of all columns over the empty dict. -/
theorem dict_to_list_eq_of_le {α : Type} {d : List (String × List α)}
    {p0 : String × List α} {rest : List (String × List α)} (hd : d = p0 :: rest)
    (hall : ∀ p ∈ d, p.2.length ≤ p0.2.length) :
    dict_to_list d = some ((List.range p0.2.length).map (recordAt d)) := by
  subst hd
  obtain ⟨k0, v0⟩ := p0
  have hinit : (v0.map fun _ => ([] : List (String × α))).length = v0.length := by
    simp
  have hs := @foldlM_setColumn_isSome α ((k0, v0) :: rest)
    (v0.map fun _ => ([] : List (String × α)))
    (fun p hp => by simpa [hinit] using hall p hp)
  obtain ⟨ret, hret⟩ := Option.isSome_iff_exists.mp hs
  obtain ⟨hlen, hpt⟩ := foldlM_setColumn_some hret
  have : ret = (List.range v0.length).map (recordAt ((k0, v0) :: rest)) := by
    apply List.ext_getElem?
    intro i
    rw [hpt i]
    by_cases hi : i < v0.length
    · rw [List.getElem?_map, List.getElem?_map, List.getElem?_range hi,
        List.getElem?_eq_getElem (by simpa using hi)]
      simp [recordAt]
    · rw [List.getElem?_map, List.getElem?_map,
        List.getElem?_eq_none (l := v0) (Nat.le_of_not_lt hi),
        List.getElem?_eq_none (l := List.range v0.length)
          (by simpa using Nat.le_of_not_lt hi)]
      rfl
  rw [dict_to_list, hret, this]

/-- With a column strictly longer than the first one, `dict_to_list`
raises IndexError. -/
theorem dict_to_list_none_of_long {α : Type} {d : List (String × List α)}
    {p0 : String × List α} {rest : List (String × List α)} (hd : d = p0 :: rest)
    (hlong : ∃ p ∈ rest, p0.2.length < p.2.length) :
    dict_to_list d = none := by
  subst hd
  obtain ⟨k0, v0⟩ := p0
  obtain ⟨p, hp, hlen⟩ := hlong
  rw [dict_to_list]
  exact foldlM_setColumn_none ⟨p, List.mem_cons_of_mem _ hp, by simpa using hlen⟩

/-! ## Lemmas about recordAt -/

theorem dictGet_foldl_not_mem {α : Type} {k : String} {i : Nat} :
    ∀ (d : List (String × List α)) (r : List (String × α)),
      k ∉ d.map Prod.fst → dictGet (d.foldl (rowStep i) r) k = dictGet r k
  | [], r => by
    intro _
    simp
  | p :: d', r => by
    intro h
    simp only [List.map_cons, List.mem_cons, not_or] at h
    rw [List.foldl_cons, dictGet_foldl_not_mem d' _ h.2]
    unfold rowStep
    cases hx : p.2[i]? with
    | none => rfl
    | some x => exact dictGet_dictSet_ne r x (fun he => h.1 he.symm)

theorem dictGet_foldl_rowStep {α : Type} {k : String} {v : List α} {i : Nat} :
    ∀ (d : List (String × List α)) (r : List (String × α)),
      (k, v) ∈ d → (d.map Prod.fst).Nodup →
      dictGet (d.foldl (rowStep i) r) k =
        match v[i]? with
        | some x => some x
        | none => dictGet r k
  | [], r => by
    intro h
    simp at h
  | p :: d', r => by
    intro hmem hnd
    simp only [List.map_cons, List.nodup_cons] at hnd
    rw [List.foldl_cons]
    rcases List.mem_cons.mp hmem with h | h
    · have hk : p.1 = k := by rw [← h]
      have hnotin : k ∉ d'.map Prod.fst := hk ▸ hnd.1
      rw [dictGet_foldl_not_mem d' _ hnotin]
      unfold rowStep
      have hv : p.2 = v := by rw [← h]
      rw [hv, hk]
      cases hx : v[i]? with
      | none => rfl
      | some x => exact dictGet_dictSet_self r k x
    · have hkmem : k ∈ d'.map Prod.fst := List.mem_map.mpr ⟨(k, v), h, rfl⟩
      have hne : k ≠ p.1 := fun he => hnd.1 (he ▸ hkmem)
      rw [dictGet_foldl_rowStep d' _ h hnd.2]
      cases hx : v[i]? with
      | some x => rfl
      | none =>
        unfold rowStep
        cases hy : p.2[i]? with
        | none => rfl
        | some y => exact dictGet_dictSet_ne r y (fun he => hne he.symm)

/-- On a table with unique keys, looking up key `k` in the record at row
`i` gives exactly the entry at position `i` of column `k`. -/
theorem dictGet_recordAt {α : Type} {k : String} {v : List α} {i : Nat}
    (d : List (String × List α)) (hmem : (k, v) ∈ d)
    (hnd : (d.map Prod.fst).Nodup) : dictGet (recordAt d i) k = v[i]? := by
  rw [recordAt, dictGet_foldl_rowStep d [] hmem hnd]
  cases hx : v[i]? <;> rfl

theorem recordAt_keys_aux {α : Type} {i : Nat} :
    ∀ (d : List (String × List α)) (r : List (String × α)),
      (d.map Prod.fst).Nodup → (∀ p ∈ d, p.1 ∉ r.map Prod.fst) →
      (d.foldl (rowStep i) r).map Prod.fst =
        r.map Prod.fst ++ (d.filter (fun p => (p.2[i]?).isSome)).map Prod.fst
  | [], r => by
    intro _ _
    simp
  | p :: d', r => by
    intro hnd hdisj
    simp only [List.map_cons, List.nodup_cons] at hnd
    rw [List.foldl_cons]
    cases hx : p.2[i]? with
    | none =>
      have hstep : rowStep i r p = r := by simp [rowStep, hx]
      rw [hstep, recordAt_keys_aux d' r hnd.2
        (fun q hq => hdisj q (List.mem_cons_of_mem p hq))]
      simp [List.filter_cons, hx]
    | some x =>
      have hstep : rowStep i r p = dictSet r p.1 x := by simp [rowStep, hx]
      have hp1 : p.1 ∉ r.map Prod.fst := hdisj p (List.mem_cons_self p d')
      have hkeys : (dictSet r p.1 x).map Prod.fst = r.map Prod.fst ++ [p.1] := by
        rw [dictSet_map_fst, insertKey]
        simp [hp1]
      have hdisj' : ∀ q ∈ d', q.1 ∉ (dictSet r p.1 x).map Prod.fst := by
        intro q hq
        rw [hkeys]
        simp only [List.mem_append, List.mem_singleton, not_or]
        refine ⟨hdisj q (List.mem_cons_of_mem p hq), fun he => hnd.1 ?_⟩
        exact he ▸ List.mem_map.mpr ⟨q, hq, rfl⟩
      rw [hstep, recordAt_keys_aux d' _ hnd.2 hdisj', hkeys]
      simp [List.filter_cons, hx]

/-- When every column reaches row `i`, the record at row `i` has exactly
the key list of the table, in table order. -/
theorem recordAt_keys {α : Type} {i : Nat} (d : List (String × List α))
    (hnd : (d.map Prod.fst).Nodup) (hall : ∀ p ∈ d, i < p.2.length) :
    (recordAt d i).map Prod.fst = d.map Prod.fst := by
  rw [recordAt, recordAt_keys_aux d [] hnd (by simp)]
  have : d.filter (fun p => (p.2[i]?).isSome) = d := by
    rw [List.filter_eq_self]
    intro p hp
    exact (getElem?_isSome_iff p.2 i).mpr (hall p hp)
  rw [this]
  simp

/-! ## Lemmas about the numpy fragment -/

theorem colOf_length : ∀ {rows : List (List Val)} {j : Nat} {c : List Val},
    colOf rows j = some c → c.length = rows.length
  | [], j, c => by
    intro h
    simp only [colOf, Option.some.injEq] at h
    subst h
    rfl
  | row :: rs, j, c => by
    intro h
    cases h1 : row[j]? with
    | none => simp [colOf, h1] at h
    | some x =>
      cases h2 : colOf rs j with
      | none => simp [colOf, h1, h2] at h
      | some xs =>
        simp only [colOf, h1, h2, Option.some.injEq] at h
        subst h
        simp [colOf_length h2]

theorem colOf_isSome : ∀ {rows : List (List Val)} {j : Nat},
    (∀ row ∈ rows, j < row.length) → ∃ c, colOf rows j = some c
  | [], j => by
    intro _
    exact ⟨[], rfl⟩
  | row :: rs, j => by
    intro h
    obtain ⟨xs, hxs⟩ := @colOf_isSome rs j
      (fun r hr => h r (List.mem_cons_of_mem row hr))
    have hj : j < row.length := h row (List.mem_cons_self row rs)
    obtain ⟨x, hx⟩ := Option.isSome_iff_exists.mp ((getElem?_isSome_iff row j).mpr hj)
    exact ⟨x :: xs, by simp [colOf, hx, hxs]⟩

theorem npCol_oneD (row : List Val) (j : Int) : npCol (NpArr.oneD row) j = none := rfl

theorem npCol_twoD_length {rows : List (List Val)} {j : Int} {c : List Val}
    (h : npCol (NpArr.twoD rows) j = some c) : c.length = rows.length := by
  simp only [npCol] at h
  split at h
  · split at h
    · exact colOf_length h
    · exact absurd h (by simp)
  · split at h
    · exact colOf_length h
    · exact absurd h (by simp)

theorem npCol_twoD_isSome {rows : List (List Val)} {w j : Nat}
    (hrect : ∀ row ∈ rows, row.length = w) (hne : rows ≠ []) (hj : j < w) :
    ∃ c, npCol (NpArr.twoD rows) (j : Int) = some c := by
  obtain ⟨r0, rs, hr⟩ := List.exists_cons_of_ne_nil hne
  subst hr
  have hw : r0.length = w := hrect r0 (List.mem_cons_self r0 rs)
  obtain ⟨c, hc⟩ := @colOf_isSome (r0 :: rs) j
    (fun row hrow => (hrect row hrow).symm ▸ hj)
  refine ⟨c, ?_⟩
  simp only [npCol, List.head?_cons, Option.map_some', Option.getD_some, hw]
  have hnn : ¬ ((j : Int) < 0) := not_lt.mpr (Int.natCast_nonneg j)
  rw [if_neg hnn]
  have hcond : (0 : Int) ≤ (j : Int) ∧ (j : Int) < (w : Int) := by
    constructor
    · exact Int.natCast_nonneg j
    · exact_mod_cast hj
  rw [if_pos hcond]
  simpa using hc

theorem genfromtxt_two {r1 r2 : List Val} {rs : List (List Val)} {w : Nat}
    (hrect : ∀ row ∈ r1 :: r2 :: rs, row.length = w) :
    genfromtxt (r1 :: r2 :: rs) = some (NpArr.twoD (r1 :: r2 :: rs)) := by
  simp only [genfromtxt]
  have : (r2 :: rs).all (fun row => row.length == r1.length) = true := by
    rw [List.all_eq_true]
    intro row hrow
    have h1 : row.length = w := hrect row (List.mem_cons_of_mem r1 hrow)
    have h2 : r1.length = w := hrect r1 (List.mem_cons_self r1 _)
    simp [h1, h2]
  rw [if_pos this]

/-! ## Lemmas about the header-slot fold of read_abunds -/

theorem slotFold_some {header : String} {dat : NpArr} {R : Nat}
    (hcol : ∀ (n : Int) (c : List Val), npCol dat n = some c → c.length = R) :
    ∀ (is : List Nat) (acc ret : List (String × List Val)),
      is.foldlM (slotStep header dat) acc = some ret →
      (∀ p ∈ acc, p.2.length = R) →
      (∀ p ∈ ret, p.2.length = R) ∧
        ret.map Prod.fst = is.foldl
          (fun ks i => if i % 2 = 0 then insertKey ks (speciesName header i) else ks)
          (acc.map Prod.fst)
  | [], acc, ret => by
    intro h hacc
    simp only [List.foldlM_nil, pure, Option.some.injEq] at h
    subst h
    exact ⟨hacc, rfl⟩
  | i :: is', acc, ret => by
    intro h hacc
    rw [List.foldlM_cons] at h
    simp only [bind, Option.bind_eq_some] at h
    obtain ⟨acc', h1, h2⟩ := h
    by_cases he : i % 2 = 0
    · simp only [slotStep, if_pos he, Option.bind_eq_some, Option.map_eq_some'] at h1
      obtain ⟨n, hn, c, hc, hacc'⟩ := h1
      subst hacc'
      have hlen : ∀ p ∈ dictSet acc (speciesName header i) c, p.2.length = R := by
        intro p hp
        rcases mem_dictSet hp with h | h
        · rw [h]
          exact hcol n c hc
        · exact hacc p h
      obtain ⟨hr1, hr2⟩ := slotFold_some hcol is' _ ret h2 hlen
      refine ⟨hr1, ?_⟩
      rw [hr2, List.foldl_cons, if_pos he, dictSet_map_fst]
    · simp only [slotStep, if_neg he, Option.some.injEq] at h1
      subst h1
      obtain ⟨hr1, hr2⟩ := slotFold_some hcol is' _ ret h2 hacc
      exact ⟨hr1, by rw [hr2, List.foldl_cons, if_neg he]⟩

theorem slotFold_isSome {header : String} {dat : NpArr} :
    ∀ (is : List Nat),
      (∀ i ∈ is, i % 2 = 0 → (slotColumn dat header i).isSome) →
      ∀ acc, ∃ ret, is.foldlM (slotStep header dat) acc = some ret
  | [] => by
    intro _ acc
    exact ⟨acc, rfl⟩
  | i :: is' => by
    intro h acc
    rw [List.foldlM_cons]
    by_cases he : i % 2 = 0
    · have hs := h i (List.mem_cons_self i is') he
      obtain ⟨c, hc⟩ := Option.isSome_iff_exists.mp hs
      simp only [slotColumn, Option.bind_eq_some] at hc
      obtain ⟨n, hn, hcc⟩ := hc
      have hstep : slotStep header dat acc i =
          some (dictSet acc (speciesName header i) c) := by
        simp [slotStep, if_pos he, hn, hcc]
      rw [hstep]
      obtain ⟨ret, hret⟩ := slotFold_isSome is'
        (fun j hj hje => h j (List.mem_cons_of_mem i hj) hje) _
      exact ⟨ret, by simpa [bind] using hret⟩
    · have hstep : slotStep header dat acc i = some acc := by
        simp [slotStep, if_neg he]
      rw [hstep]
      obtain ⟨ret, hret⟩ := slotFold_isSome is'
        (fun j hj hje => h j (List.mem_cons_of_mem i hj) hje) acc
      exact ⟨ret, by simpa [bind] using hret⟩

/-! ## Lemmas about headerKeys -/

theorem keyfold_nodup (header : String) :
    ∀ (is : List Nat) (ks : List String), ks.Nodup →
      (is.foldl
        (fun ks i => if i % 2 = 0 then insertKey ks (speciesName header i) else ks)
        ks).Nodup
  | [], ks => fun h => h
  | i :: is', ks => by
    intro h
    rw [List.foldl_cons]
    by_cases he : i % 2 = 0
    · rw [if_pos he]
      exact keyfold_nodup header is' _ (insertKey_nodup _ h)
    · rw [if_neg he]
      exact keyfold_nodup header is' ks h

theorem keyfold_toFinset (header : String) :
    ∀ (is : List Nat) (ks : List String),
      (is.foldl
        (fun ks i => if i % 2 = 0 then insertKey ks (speciesName header i) else ks)
        ks).toFinset =
      ks.toFinset ∪ ((is.filter (fun i => i % 2 = 0)).map (speciesName header)).toFinset
  | [], ks => by simp
  | i :: is', ks => by
    rw [List.foldl_cons]
    by_cases he : i % 2 = 0
    · rw [if_pos he, keyfold_toFinset header is' _, insertKey_toFinset]
      have hf : (i :: is').filter (fun i => i % 2 = 0) =
          i :: is'.filter (fun i => i % 2 = 0) := by
        simp [List.filter_cons, he]
      rw [hf]
      simp [Finset.insert_union, Finset.union_insert]
    · rw [if_neg he, keyfold_toFinset header is' ks]
      have hf : (i :: is').filter (fun i => i % 2 = 0) =
          is'.filter (fun i => i % 2 = 0) := by
        simp [List.filter_cons, he]
      rw [hf]

theorem headerKeys_nodup (header : String) : (headerKeys header).Nodup :=
  keyfold_nodup header (List.range (numSlots header)) ["P", "T", "rho"] (by decide)

theorem headerKeys_toFinset (header : String) :
    (headerKeys header).toFinset =
      insert "P" (insert "T" (insert "rho" (speciesNamesEven header).toFinset)) := by
  rw [headerKeys, keyfold_toFinset header, speciesNamesEven]
  simp only [List.toFinset_cons, List.toFinset_nil, Finset.insert_union,
    Finset.empty_union]

theorem mem_headerKeys_of_even (header : String) {i : Nat} (hi : i < numSlots header)
    (he : i % 2 = 0) : speciesName header i ∈ headerKeys header := by
  rw [← List.mem_toFinset, headerKeys_toFinset]
  have : speciesName header i ∈ (speciesNamesEven header).toFinset := by
    rw [List.mem_toFinset, speciesNamesEven]
    exact List.mem_map.mpr ⟨i, List.mem_filter.mpr ⟨List.mem_range.mpr hi, by simp [he]⟩, rfl⟩
  simp [Finset.mem_insert, this]

theorem mem_headerKeys (header : String) {k : String} (h : k ∈ headerKeys header) :
    k = "P" ∨ k = "T" ∨ k = "rho" ∨
      ∃ i, i < numSlots header ∧ i % 2 = 0 ∧ speciesName header i = k := by
  rw [← List.mem_toFinset, headerKeys_toFinset] at h
  simp only [Finset.mem_insert, List.mem_toFinset, speciesNamesEven, List.mem_map,
    List.mem_filter, List.mem_range] at h
  rcases h with h | h | h | ⟨i, ⟨hi, he⟩, hn⟩
  · exact Or.inl h
  · exact Or.inr (Or.inl h)
  · exact Or.inr (Or.inr (Or.inl h))
  · exact Or.inr (Or.inr (Or.inr ⟨i, hi, by simpa using he, hn⟩))

/-! ## Master lemmas about read_abunds -/

/-- Whatever the file, a successful run of `read_abunds` returns one
record per parsed body row, and every record has exactly the key list
the header decodes to. -/
theorem read_abunds_some_struct {f : AbundFile} {l : List (List (String × Val))}
    (h : read_abunds f = some l) :
    l.length = f.body.length ∧
      ∀ r ∈ l, r.map Prod.fst = headerKeys (headerOf f) := by
  rw [read_abunds] at h
  simp only [Option.bind_eq_some] at h
  obtain ⟨dat, hdat, p, hp, t, ht, rho, hrho, ret, hfold, hdtl⟩ := h
  have hdat2 : dat = NpArr.twoD f.body := by
    rcases hb : f.body with - | ⟨r1, - | ⟨r2, rs⟩⟩
    · rw [hb] at hdat
      simp only [genfromtxt, Option.some.injEq] at hdat
      rw [← hdat] at hp
      simp [npCol] at hp
    · rw [hb] at hdat
      simp only [genfromtxt, Option.some.injEq] at hdat
      rw [← hdat] at hp
      simp [npCol] at hp
    · rw [hb] at hdat
      simp only [genfromtxt] at hdat
      split at hdat
      · exact (Option.some_inj.mp hdat).symm
      · exact absurd hdat (by simp)
  subst hdat2
  have hcol : ∀ (n : Int) (c : List Val),
      npCol (NpArr.twoD f.body) n = some c → c.length = f.body.length :=
    fun n c hc => npCol_twoD_length hc
  have hinit : ∀ q ∈ [("P", p), ("T", t), ("rho", rho)], q.2.length = f.body.length := by
    intro q hq
    simp only [List.mem_cons, List.not_mem_nil, or_false] at hq
    rcases hq with rfl | rfl | rfl
    · exact hcol 0 p hp
    · exact hcol 1 t ht
    · exact hcol 2 rho hrho
  obtain ⟨hretlen, hretkeys⟩ :=
    slotFold_some hcol (List.range (numSlots (headerOf f))) _ ret hfold hinit
  have hkeys : ret.map Prod.fst = headerKeys (headerOf f) := by
    simpa [headerKeys] using hretkeys
  have hnd : (ret.map Prod.fst).Nodup := hkeys ▸ headerKeys_nodup (headerOf f)
  have hPmem : "P" ∈ ret.map Prod.fst := by
    rw [hkeys, ← List.mem_toFinset, headerKeys_toFinset]
    exact Finset.mem_insert_self _ _
  have hne : ret ≠ [] := by
    intro hnil
    rw [hnil] at hPmem
    simp at hPmem
  obtain ⟨q0, rest', hret_eq⟩ := List.exists_cons_of_ne_nil hne
  have hq0len : q0.2.length = f.body.length :=
    hretlen q0 (hret_eq ▸ List.mem_cons_self q0 rest')
  have hdtl2 := dict_to_list_eq_of_le hret_eq
    (fun q hq => (hretlen q hq).symm ▸ (hq0len ▸ Nat.le_refl _))
  rw [hdtl] at hdtl2
  have hl : l = (List.range q0.2.length).map (recordAt ret) :=
    Option.some_inj.mp hdtl2
  constructor
  · rw [hl, List.length_map, List.length_range, hq0len]
  · intro r hr
    rw [hl] at hr
    obtain ⟨i, hi, hri⟩ := List.mem_map.mp hr
    have hilt : i < f.body.length := hq0len ▸ List.mem_range.mp hi
    rw [← hri, recordAt_keys ret hnd (fun q hq => (hretlen q hq).symm ▸ hilt), hkeys]

/-- Under the wellformedness hypotheses (at least two body rows, a
rectangular body at least three columns wide, and every even header slot
with a parsable in-range index field), `read_abunds` succeeds. -/
theorem read_abunds_isSome {f : AbundFile} {w : Nat} (hR : 2 ≤ f.body.length)
    (hrect : ∀ row ∈ f.body, row.length = w) (hw : 3 ≤ w)
    (hslots : ∀ i, i < numSlots (headerOf f) → i % 2 = 0 →
      (slotColumn (NpArr.twoD f.body) (headerOf f) i).isSome) :
    ∃ l, read_abunds f = some l := by
  have hne : f.body ≠ [] := by
    intro hnil
    rw [hnil] at hR
    simp at hR
  have hgen : genfromtxt f.body = some (NpArr.twoD f.body) := by
    rcases hb : f.body with - | ⟨r1, - | ⟨r2, rs⟩⟩
    · exact absurd hb hne
    · rw [hb] at hR
      simp at hR
    · rw [← hb]
      rw [hb]
      exact genfromtxt_two (hb ▸ hrect)
  obtain ⟨p, hp⟩ := npCol_twoD_isSome (w := w) (j := 0) hrect hne (by omega)
  obtain ⟨t, ht⟩ := npCol_twoD_isSome (w := w) (j := 1) hrect hne (by omega)
  obtain ⟨rho, hrho⟩ := npCol_twoD_isSome (w := w) (j := 2) hrect hne (by omega)
  have hp' : npCol (NpArr.twoD f.body) 0 = some p := by simpa using hp
  have ht' : npCol (NpArr.twoD f.body) 1 = some t := by simpa using ht
  have hrho' : npCol (NpArr.twoD f.body) 2 = some rho := by simpa using hrho
  obtain ⟨ret, hret⟩ := slotFold_isSome (List.range (numSlots (headerOf f)))
    (fun i hi he => hslots i (List.mem_range.mp hi) he)
    [("P", p), ("T", t), ("rho", rho)]
  have hcol : ∀ (n : Int) (c : List Val),
      npCol (NpArr.twoD f.body) n = some c → c.length = f.body.length :=
    fun n c hc => npCol_twoD_length hc
  have hinit : ∀ q ∈ [("P", p), ("T", t), ("rho", rho)], q.2.length = f.body.length := by
    intro q hq
    simp only [List.mem_cons, List.not_mem_nil, or_false] at hq
    rcases hq with rfl | rfl | rfl
    · exact hcol 0 p hp'
    · exact hcol 1 t ht'
    · exact hcol 2 rho hrho'
  obtain ⟨hretlen, hretkeys⟩ :=
    slotFold_some hcol (List.range (numSlots (headerOf f))) _ ret hret hinit
  have hkeys : ret.map Prod.fst = headerKeys (headerOf f) := by
    simpa [headerKeys] using hretkeys
  have hPmem : "P" ∈ ret.map Prod.fst := by
    rw [hkeys, ← List.mem_toFinset, headerKeys_toFinset]
    exact Finset.mem_insert_self _ _
  have hrne : ret ≠ [] := by
    intro hnil
    rw [hnil] at hPmem
    simp at hPmem
  obtain ⟨q0, rest', hret_eq⟩ := List.exists_cons_of_ne_nil hrne
  have hq0len : q0.2.length = f.body.length :=
    hretlen q0 (hret_eq ▸ List.mem_cons_self q0 rest')
  have hdtl := dict_to_list_eq_of_le hret_eq
    (fun q hq => (hretlen q hq).symm ▸ (hq0len ▸ Nat.le_refl _))
  refine ⟨(List.range q0.2.length).map (recordAt ret), ?_⟩
  rw [read_abunds, hgen]
  simp only [Option.some_bind]
  rw [hp', ht', hrho']
  simp only [Option.some_bind]
  rw [hret]
  simpa using hdtl

/-! ## Concrete example files -/

/-- The first 21 characters of an example header (the fixed prefix a
genfromtxt comment mark opens). -/
def exHead21 : String := "#P(bar)  T(K)  rho   "

/-- An even slot binding column 3 to the species H2. -/
def slotH2 : String := "  3H2                 "

/-- An odd slot (carries a companion value, skipped by the parser). -/
def slotOdd : String := "                      "

/-- An even slot binding column 4 to the species He. -/
def slotHe : String := "  4He                 "

/-- An even slot whose name field holds an interior space. -/
def slotAB : String := "  3A B                "

/-- An even slot carrying the acetylene label. -/
def slotAcet : String := "  3C2H2,acetylene     "

/-- A wellformed file with three header slots and two body rows. -/
def exFile2 : AbundFile :=
  ⟨exHead21 ++ slotH2 ++ slotOdd ++ slotHe ++ "\n",
    [[1, 300, 5, 7, 9], [2, 310, 6, 8, 10]]⟩

/-- A wellformed file with a single body row. -/
def exFile1 : AbundFile := ⟨exHead21 ++ slotH2 ++ "\n", [[1, 300, 5, 7]]⟩

/-- A wellformed file with an empty body. -/
def exFile0 : AbundFile := ⟨exHead21 ++ slotH2 ++ "\n", []⟩

/-- A two-row file whose single species name has an interior space. -/
def exFileAB : AbundFile :=
  ⟨exHead21 ++ slotAB ++ "\n", [[1, 300, 5, 7], [2, 310, 6, 8]]⟩

/-- A two-row file whose single species slot carries the acetylene label. -/
def exFileAcet : AbundFile :=
  ⟨exHead21 ++ slotAcet ++ "\n", [[1, 300, 5, 7], [2, 310, 6, 8]]⟩

/-! ## Claim theorems -/

/-- Claim C2 (confirmed): for every non-empty mapping whose values are
all sequences of length `N`, `dict_to_list` returns exactly `N`
dictionaries; record `i` has the key list of the input and maps every
key `k` to the entry at position `i` of column `k`.  The embedding is a
pure function, so determinism and absence of side effects hold by
construction, and row order is the index order stated here. -/
theorem dict_to_list_equal_columns {α : Type} (d : List (String × List α)) (N : Nat)
    (hne : d ≠ []) (hnd : (d.map Prod.fst).Nodup)
    (hlen : ∀ p ∈ d, p.2.length = N) :
    ∃ l, dict_to_list d = some l ∧ l.length = N ∧
      ∀ (i : Nat) (r : List (String × α)), l[i]? = some r →
        r.map Prod.fst = d.map Prod.fst ∧ ∀ p ∈ d, dictGet r p.1 = p.2[i]? := by
  obtain ⟨p0, rest, hd⟩ := List.exists_cons_of_ne_nil hne
  have hN : p0.2.length = N := hlen p0 (hd ▸ List.mem_cons_self p0 rest)
  have hdtl := dict_to_list_eq_of_le hd
    (fun q hq => (hlen q hq).symm ▸ (hN ▸ Nat.le_refl _))
  refine ⟨(List.range p0.2.length).map (recordAt d), hdtl, by simp [hN], ?_⟩
  intro i r hir
  rw [List.getElem?_map] at hir
  rcases hrange : (List.range p0.2.length)[i]? with - | j
  · rw [hrange] at hir
    exact absurd hir (by simp)
  · rw [hrange] at hir
    have hji : j = i := by
      have := List.getElem?_range (m := i) (n := p0.2.length)
      rcases Nat.lt_or_ge i p0.2.length with hlt | hge
      · rw [this hlt] at hrange
        exact (Option.some_inj.mp hrange).symm
      · rw [List.getElem?_eq_none (by simpa using hge)] at hrange
        exact absurd hrange (by simp)
    subst hji
    have hilt : j < N := by
      have := (getElem?_isSome_iff (List.range p0.2.length) j).mp (by rw [hrange]; rfl)
      simpa [hN] using this
    have hr : r = recordAt d j := (Option.some_inj.mp hir).symm
    subst hr
    constructor
    · exact recordAt_keys d hnd (fun q hq => (hlen q hq).symm ▸ hilt)
    · intro p hp
      exact dictGet_recordAt (k := p.1) (v := p.2) d (by simpa using hp) hnd

/-- Witness for C2 at a concrete two-column, two-row table. -/
theorem dict_to_list_equal_columns_witness :
    ([("a", [(1 : Val), 2]), ("b", [3, 4])] : List (String × List Val)) ≠ [] ∧
    ∃ l, dict_to_list [("a", [(1 : Val), 2]), ("b", [3, 4])] = some l ∧
      l.length = 2 ∧
      ∀ (i : Nat) (r : List (String × Val)), l[i]? = some r →
        r.map Prod.fst =
          ([("a", [(1 : Val), 2]), ("b", [3, 4])] : List (String × List Val)).map Prod.fst ∧
        ∀ p ∈ ([("a", [(1 : Val), 2]), ("b", [3, 4])] : List (String × List Val)),
          dictGet r p.1 = p.2[i]? :=
  ⟨by decide,
    dict_to_list_equal_columns [("a", [(1 : Val), 2]), ("b", [3, 4])] 2
      (by decide) (by decide) (by decide)⟩

/-- Claim C10 (confirmed): with unequal column lengths the output length
is that of the first column (length `N`).  When every other column is at
most as long, `dict_to_list` returns exactly `N` records and the record
at index `i` lacks every key whose column is shorter than `i + 1`; when
some column is longer than `N`, the indexed assignment raises IndexError
(modelled as `none`). -/
theorem dict_to_list_ragged {α : Type} (k0 : String) (v0 : List α)
    (rest : List (String × List α))
    (hnd : (((k0, v0) :: rest).map Prod.fst).Nodup) :
    ((∀ p ∈ rest, p.2.length ≤ v0.length) →
      ∃ l, dict_to_list ((k0, v0) :: rest) = some l ∧ l.length = v0.length ∧
        ∀ (i : Nat) (r : List (String × α)), l[i]? = some r →
          ∀ p ∈ (k0, v0) :: rest, p.2.length ≤ i → dictGet r p.1 = none) ∧
    ((∃ p ∈ rest, v0.length < p.2.length) →
      dict_to_list ((k0, v0) :: rest) = none) := by
  constructor
  · intro hle
    have hdtl := dict_to_list_eq_of_le (d := (k0, v0) :: rest) rfl
      (by
        intro q hq
        rcases List.mem_cons.mp hq with h | h
        · rw [h]
        · exact hle q h)
    refine ⟨(List.range v0.length).map (recordAt ((k0, v0) :: rest)), hdtl, by simp, ?_⟩
    intro i r hir p hp hshort
    rw [List.getElem?_map] at hir
    rcases hrange : (List.range v0.length)[i]? with - | j
    · rw [hrange] at hir
      exact absurd hir (by simp)
    · rw [hrange] at hir
      have hji : j = i := by
        rcases Nat.lt_or_ge i v0.length with hlt | hge
        · rw [List.getElem?_range hlt] at hrange
          exact (Option.some_inj.mp hrange).symm
        · rw [List.getElem?_eq_none (by simpa using hge)] at hrange
          exact absurd hrange (by simp)
      subst hji
      have hr : r = recordAt ((k0, v0) :: rest) j := (Option.some_inj.mp hir).symm
      subst hr
      rw [dictGet_recordAt (k := p.1) (v := p.2) _ (by simpa using hp) hnd]
      exact List.getElem?_eq_none hshort
  · intro hlong
    exact dict_to_list_none_of_long rfl hlong

/-- Witness for C10: a shorter second column loses its key in the later
record, and a longer second column makes the call fail. -/
theorem dict_to_list_ragged_witness :
    ((∀ p ∈ ([("b", [3])] : List (String × List Val)), p.2.length ≤ 2) ∧
      ∃ l, dict_to_list [("a", [(1 : Val), 2]), ("b", [3])] = some l ∧
        l.length = 2 ∧
        ∀ (i : Nat) (r : List (String × Val)), l[i]? = some r →
          ∀ p ∈ ([("a", [(1 : Val), 2]), ("b", [3])] : List (String × List Val)),
            p.2.length ≤ i → dictGet r p.1 = none) ∧
    dict_to_list [("a", [(1 : Val)]), ("b", [3, 4])] = none :=
  ⟨⟨by decide,
    (by simpa using
      (dict_to_list_ragged "a" [(1 : Val), 2] [("b", [3])] (by decide)).1 (by decide))⟩,
   (dict_to_list_ragged "a" [(1 : Val)] [("b", [3, 4])] (by decide)).2
     ⟨("b", [3, 4]), by decide⟩⟩

/-- The records read_abunds produces for exFile2. -/
def exRec0 : List (String × Val) := [("P", 1), ("T", 300), ("rho", 5), ("H2", 7), ("He", 9)]

/-- The second record read_abunds produces for exFile2. -/
def exRec1 : List (String × Val) := [("P", 2), ("T", 310), ("rho", 6), ("H2", 8), ("He", 10)]

/-- The first record read_abunds produces for exFileAB. -/
def exRecAB0 : List (String × Val) := [("P", 1), ("T", 300), ("rho", 5), ("AB", 7)]

/-- The second record read_abunds produces for exFileAB. -/
def exRecAB1 : List (String × Val) := [("P", 2), ("T", 310), ("rho", 6), ("AB", 8)]

/-- The first record read_abunds produces for exFileAcet. -/
def exRecAcet0 : List (String × Val) := [("P", 1), ("T", 300), ("rho", 5), ("C2H2", 7)]

/-- Claim C1 (amended): for every wellformed fixed-width abundances file
with at least two body lines, `read_abunds` returns one record per body
line, and every record has key set {P, T, rho} united with the species
names decoded from the even-indexed header slots.  The two-line floor is
forced by numpy: `genfromtxt` returns a squeezed 1-D array for zero or
one data rows, and the column extraction then raises IndexError (see the
counterexample at a wellformed single-row file). -/
theorem read_abunds_wellformed {f : AbundFile} {w : Nat}
    (_hhdr : 21 ≤ (headerOf f).length ∧ ((headerOf f).length - 21) % 22 = 0)
    (hR : 2 ≤ f.body.length) (hrect : ∀ row ∈ f.body, row.length = w) (hw : 3 ≤ w)
    (hslots : ∀ i, i < numSlots (headerOf f) → i % 2 = 0 →
      (slotColumn (NpArr.twoD f.body) (headerOf f) i).isSome) :
    ∃ l, read_abunds f = some l ∧ l.length = f.body.length ∧
      ∀ r ∈ l, (r.map Prod.fst).toFinset =
        insert "P" (insert "T" (insert "rho"
          (speciesNamesEven (headerOf f)).toFinset)) := by
  obtain ⟨l, hl⟩ := read_abunds_isSome hR hrect hw hslots
  obtain ⟨hlen, hkeys⟩ := read_abunds_some_struct hl
  exact ⟨l, hl, hlen, fun r hr => by rw [hkeys r hr, headerKeys_toFinset]⟩

/-- Witness for C1 at the wellformed two-row file exFile2. -/
theorem read_abunds_wellformed_witness :
    2 ≤ exFile2.body.length ∧
    ∃ l, read_abunds exFile2 = some l ∧ l.length = exFile2.body.length ∧
      ∀ r ∈ l, (r.map Prod.fst).toFinset =
        insert "P" (insert "T" (insert "rho"
          (speciesNamesEven (headerOf exFile2)).toFinset)) :=
  ⟨by decide,
    read_abunds_wellformed (w := 5) (by decide) (by decide) (by decide) (by decide)
      (by decide)⟩

/-- Counterexample for C1 as stated: a wellformed file (header of length
21 plus one 22-character slot, consistent four-column numeric body) with
exactly one body line, on which read_abunds raises instead of returning
a one-record sequence. -/
theorem read_abunds_single_row_fails :
    exFile1.body.length = 1 ∧ (∀ row ∈ exFile1.body, row.length = 4) ∧
    21 ≤ (headerOf exFile1).length ∧ ((headerOf exFile1).length - 21) % 22 = 0 ∧
    read_abunds exFile1 = none := by decide

/-- Claim C3 (confirmed): whenever read_abunds succeeds, every key of
every output record is P, T, rho, or a species name decoded from an
even-indexed header slot; an odd-indexed slot never contributes a key. -/
theorem read_abunds_keys_even_only {f : AbundFile} {l : List (List (String × Val))}
    (h : read_abunds f = some l) :
    ∀ r ∈ l, ∀ k ∈ r.map Prod.fst,
      k = "P" ∨ k = "T" ∨ k = "rho" ∨ k ∈ speciesNamesEven (headerOf f) := by
  obtain ⟨-, hkeys⟩ := read_abunds_some_struct h
  intro r hr k hk
  rw [hkeys r hr] at hk
  rcases mem_headerKeys _ hk with h1 | h1 | h1 | ⟨i, hi, he, hn⟩
  · exact Or.inl h1
  · exact Or.inr (Or.inl h1)
  · exact Or.inr (Or.inr (Or.inl h1))
  · refine Or.inr (Or.inr (Or.inr ?_))
    rw [← hn, speciesNamesEven]
    exact List.mem_map.mpr
      ⟨i, List.mem_filter.mpr ⟨List.mem_range.mpr hi, by simp [he]⟩, rfl⟩

/-- Witness for C3: the key H2 of the first exFile2 record is accounted
for by an even slot. -/
theorem read_abunds_keys_even_only_witness :
    "H2" = "P" ∨ "H2" = "T" ∨ "H2" = "rho" ∨
      "H2" ∈ speciesNamesEven (headerOf exFile2) :=
  read_abunds_keys_even_only (f := exFile2) (l := [exRec0, exRec1]) (by decide)
    exRec0 (by decide) "H2" (by decide)

/-- Claim C4 (confirmed): an even slot whose decoded raw name is the
acetylene label binds its column to the key C2H2, and the key
C2H2,acetylene never appears in any output record. -/
theorem read_abunds_acetylene_rename {f : AbundFile} {l : List (List (String × Val))}
    (h : read_abunds f = some l) :
    (∀ i, i < numSlots (headerOf f) → i % 2 = 0 →
      rawName (headerOf f) i = "C2H2,acetylene" →
      ∀ r ∈ l, "C2H2" ∈ r.map Prod.fst) ∧
    ∀ r ∈ l, "C2H2,acetylene" ∉ r.map Prod.fst := by
  obtain ⟨-, hkeys⟩ := read_abunds_some_struct h
  constructor
  · intro i hi he hraw r hr
    rw [hkeys r hr]
    have hname : speciesName (headerOf f) i = "C2H2" := by
      rw [speciesName, if_pos hraw]
    exact hname ▸ mem_headerKeys_of_even _ hi he
  · intro r hr hmem
    rw [hkeys r hr] at hmem
    rcases mem_headerKeys _ hmem with h1 | h1 | h1 | ⟨i, hi, he, hn⟩
    · exact absurd h1 (by decide)
    · exact absurd h1 (by decide)
    · exact absurd h1 (by decide)
    · by_cases hraw : rawName (headerOf f) i = "C2H2,acetylene"
      · rw [speciesName, if_pos hraw] at hn
        exact absurd hn (by decide)
      · rw [speciesName, if_neg hraw] at hn
        exact hraw hn

/-- Witness for C4 at exFileAcet, whose only species slot carries the
acetylene label. -/
theorem read_abunds_acetylene_rename_witness :
    "C2H2" ∈ exRecAcet0.map Prod.fst ∧
    "C2H2,acetylene" ∉ exRecAcet0.map Prod.fst :=
  ⟨(read_abunds_acetylene_rename (f := exFileAcet)
      (l := [exRecAcet0, [("P", 2), ("T", 310), ("rho", 6), ("C2H2", 8)]])
      (by decide)).1 0 (by decide) (by decide) (by decide) exRecAcet0 (by decide),
   (read_abunds_acetylene_rename (f := exFileAcet)
      (l := [exRecAcet0, [("P", 2), ("T", 310), ("rho", 6), ("C2H2", 8)]])
      (by decide)).2 exRecAcet0 (by decide)⟩

/-- Claim C5 (amended): the species name an even slot binds is
`speciesName`, that is, characters 3 through 21 of the slot with every
space character removed (interior spaces included) and the acetylene
rename applied; whenever read_abunds succeeds this name is a key of
every output record.  The original claim (only surrounding whitespace
trimmed, interior spaces preserved) fails: see the counterexample. -/
theorem read_abunds_species_name_key {f : AbundFile} {l : List (List (String × Val))}
    (h : read_abunds f = some l) :
    ∀ i, i < numSlots (headerOf f) → i % 2 = 0 →
      ∀ r ∈ l, speciesName (headerOf f) i ∈ r.map Prod.fst := by
  obtain ⟨-, hkeys⟩ := read_abunds_some_struct h
  intro i hi he r hr
  rw [hkeys r hr]
  exact mem_headerKeys_of_even _ hi he

/-- Witness for C5 at exFile2 and its first even slot. -/
theorem read_abunds_species_name_key_witness :
    speciesName (headerOf exFile2) 0 ∈ exRec0.map Prod.fst :=
  read_abunds_species_name_key (f := exFile2) (l := [exRec0, exRec1]) (by decide)
    0 (by decide) (by decide) exRec0 (by decide)

/-- Counterexample for C5 as stated: in exFileAB the even slot carries
the name field A B (interior space).  The parser removes the interior
space, so the output key is AB and the claimed key A B does not appear. -/
theorem species_interior_space_counterexample :
    read_abunds exFileAB = some [exRecAB0, exRecAB1] ∧
    "AB" ∈ exRecAB0.map Prod.fst ∧
    "A B" ∉ exRecAB0.map Prod.fst := by decide

/-- Claim C6 (amended): an abundances file with zero body lines makes
read_abunds fail rather than return an empty record sequence: numpy
returns an empty 1-D array for an empty body and the extraction of
column 0 raises IndexError. -/
theorem read_abunds_empty_body_fails (f : AbundFile) (h : f.body = []) :
    read_abunds f = none := by
  rw [read_abunds, h]
  rfl

/-- Witness for the amended C6 at the concrete empty-body file. -/
theorem read_abunds_empty_body_witness :
    exFile0.body = [] ∧ read_abunds exFile0 = none :=
  ⟨rfl, read_abunds_empty_body_fails exFile0 rfl⟩

/-- Counterexample for C6 as stated: a file with a wellformed header of
length 43 and zero body lines, on which read_abunds raises instead of
returning a length-0 record sequence. -/
theorem read_abunds_empty_body_counterexample :
    exFile0.body = [] ∧ 21 ≤ (headerOf exFile0).length ∧
    ((headerOf exFile0).length - 21) % 22 = 0 ∧
    read_abunds exFile0 = none := by decide

/-- Claim C7 (code bug): the recognized selectors copy the matching
template onto the active input file, and any other selector fails
before any copy; but the failure is a TypeError (exceptions must derive
from BaseException), because `raise(KeyError, "...")` raises the tuple
itself in Python 3, not the intended KeyError naming the valid options. -/
theorem set_abundance_file_spec :
    set_abundance_file "std" = Except.ok ("Standard_abundances.inp", "abundances.inp") ∧
    set_abundance_file "subsolar" =
      Except.ok ("Subsolar_abundances.inp", "abundances.inp") ∧
    ∀ atype, atype ≠ "std" → atype ≠ "subsolar" →
      set_abundance_file atype =
        Except.error (PyError.typeError "exceptions must derive from BaseException") := by
  refine ⟨rfl, rfl, fun atype h1 h2 => ?_⟩
  simp [set_abundance_file, h1, h2]

/-- Witness for C7 at the unrecognized selector solar. -/
theorem set_abundance_file_witness :
    set_abundance_file "solar" =
      Except.error (PyError.typeError "exceptions must derive from BaseException") :=
  set_abundance_file_spec.2.2 "solar" (by decide) (by decide)

/-- Claim C8 (confirmed): the working-directory change of the chemistry
bridge is not exception-safe.  When any step after the change fails, the
run ends inside the solver directory and no restoring chdir appears in
the trace; only on the success path does the restore run, and there it
follows the deletion of the three working files. -/
theorem get_PT_abundances_MMW_cwd (w : ChemWorld) :
    ((get_PT_abundances_MMW w).result = none →
      (get_PT_abundances_MMW w).finalCwd = joinPath w.cwd "easy_chem" ∧
      (get_PT_abundances_MMW w).finalCwd ≠ w.cwd ∧
      Op.chdir w.cwd ∉ (get_PT_abundances_MMW w).trace) ∧
    ((get_PT_abundances_MMW w).result ≠ none →
      (get_PT_abundances_MMW w).finalCwd = w.cwd ∧
      ∃ pre, (get_PT_abundances_MMW w).trace = pre ++
        [Op.system "rm MMWs.dat", Op.system "rm final_abund_all.dat",
         Op.system "rm PT_struct.dat", Op.chdir w.cwd]) := by
  have hlen : (joinPath w.cwd "easy_chem").length = w.cwd.length + 10 := by
    rw [joinPath, String.length_append, String.length_append]
    rfl
  have hne : joinPath w.cwd "easy_chem" ≠ w.cwd := by
    intro heq
    have := congrArg String.length heq
    omega
  have hne2 : w.cwd ≠ joinPath w.cwd "easy_chem" := fun h => hne h.symm
  by_cases hs : w.savetxtOk
  · rcases habunds : w.abundFile.bind read_abunds with - | abunds
    · constructor
      · intro _
        refine ⟨by simp [get_PT_abundances_MMW, hs, habunds], ?_, ?_⟩
        · simp only [get_PT_abundances_MMW, hs, habunds]
          simpa using hne
        · simp only [get_PT_abundances_MMW, hs, habunds]
          simp [hne2]
      · intro hres
        exact absurd (by simp [get_PT_abundances_MMW, hs, habunds]) hres
    · rcases hmmw : (w.mmwRows.bind genfromtxt).bind (fun dat => npCol dat 1)
        with - | mmw
      · constructor
        · intro _
          refine ⟨by simp [get_PT_abundances_MMW, hs, habunds, hmmw], ?_, ?_⟩
          · simp only [get_PT_abundances_MMW, hs, habunds, hmmw]
            simpa using hne
          · simp only [get_PT_abundances_MMW, hs, habunds, hmmw]
            simp [hne2]
        · intro hres
          exact absurd (by simp [get_PT_abundances_MMW, hs, habunds, hmmw]) hres
      · constructor
        · intro hres
          exact absurd hres (by simp [get_PT_abundances_MMW, hs, habunds, hmmw])
        · intro _
          refine ⟨by simp [get_PT_abundances_MMW, hs, habunds, hmmw], ?_⟩
          refine ⟨[Op.chdir (joinPath w.cwd "easy_chem"), Op.savetxt "PT_struct.dat",
            Op.system "./call_easy_chem"], ?_⟩
          simp [get_PT_abundances_MMW, hs, habunds, hmmw]
  · constructor
    · intro _
      refine ⟨by simp [get_PT_abundances_MMW, hs], ?_, ?_⟩
      · simp only [get_PT_abundances_MMW, hs]
        simpa using hne
      · simp only [get_PT_abundances_MMW, hs]
        simp [hne2]
    · intro hres
      exact absurd (by simp [get_PT_abundances_MMW, hs]) hres

/-- A run whose abundances read fails (the solver produced no output
file): savetxt and the solver call succeed, the MMW file would parse. -/
def exWorldFail : ChemWorld := ⟨"/work", true, none, some [[1, 5], [2, 6]]⟩

/-- A run in which every step succeeds. -/
def exWorldOk : ChemWorld := ⟨"/work", true, some exFile2, some [[1, 5], [2, 6]]⟩

/-- Witness for C8: the failing run ends inside the solver directory
with no restoring chdir, and the fully successful run restores after
the three deletions. -/
theorem get_PT_abundances_MMW_cwd_witness :
    ((get_PT_abundances_MMW exWorldFail).result = none ∧
      ((get_PT_abundances_MMW exWorldFail).finalCwd =
          joinPath exWorldFail.cwd "easy_chem" ∧
        (get_PT_abundances_MMW exWorldFail).finalCwd ≠ exWorldFail.cwd ∧
        Op.chdir exWorldFail.cwd ∉ (get_PT_abundances_MMW exWorldFail).trace)) ∧
    ((get_PT_abundances_MMW exWorldOk).result ≠ none ∧
      ((get_PT_abundances_MMW exWorldOk).finalCwd = exWorldOk.cwd ∧
        ∃ pre, (get_PT_abundances_MMW exWorldOk).trace = pre ++
          [Op.system "rm MMWs.dat", Op.system "rm final_abund_all.dat",
           Op.system "rm PT_struct.dat", Op.chdir exWorldOk.cwd])) :=
  ⟨⟨by decide, (get_PT_abundances_MMW_cwd exWorldFail).1 (by decide)⟩,
   ⟨by decide, (get_PT_abundances_MMW_cwd exWorldOk).2 (by decide)⟩⟩

/-- Claim C9 (confirmed): for any model string other than constant and
guillot, `temperature_model` raises nothing and silently returns no
temperature profile together with a params dict holding only the model
name. -/
theorem temperature_model_unknown (temp : Rat) (pressures : List Rat) (gravity : Rat)
    (guillot_global : List Rat → Rat → Rat → Rat → Rat → Rat → List Rat)
    (model : String) (h1 : model ≠ "constant") (h2 : model ≠ "guillot") :
    temperature_model temp pressures gravity guillot_global model =
      (none, [("model", PVal.s model)]) := by
  simp [temperature_model, h1, h2]

/-- Witness for C9 at the unrecognized model name isothermal. -/
theorem temperature_model_unknown_witness :
    temperature_model 1000 [1, 10] 981 (fun p _ _ _ _ _ => p) "isothermal" =
      (none, [("model", PVal.s "isothermal")]) :=
  temperature_model_unknown 1000 [1, 10] 981 (fun p _ _ _ _ _ => p) "isothermal"
    (by decide) (by decide)

end Platmy
